import Mathlib

/-!
Verification of the ZX Spectrum snapshot library (`lib-zx-sna`).

The Rust source (src/lib.rs) is shallowly embedded below:

* `Vec<u8>` input buffers become `Buf` (a length plus a contents function);
  every indexing or slicing operation in the source is modelled through
  `Buf.get?` / `copyChunk`, which return `none` exactly when the source
  would panic with an out-of-bounds access.
* a memory bank (`Vec<u8>` of 16 KiB) becomes a function `Nat → Nat`;
  every access in the source masks the offset with `0x3FFF`, so only
  offsets below 16384 are ever observed.
* panics (`panic!`, slice out of bounds, `.expect`) are modelled by
  `Option`: `none` is a fatal fault.  The source's
  `TryFrom<Vec<u8>>` has error type `FromUtf8Error`, but no `Err` value
  is ever constructed, so its result collapses to `Option Snapshot`
  (`none` = panic, `some` = `Ok`).
-/

namespace ZxSna

def MEM_1K : Nat := 1024

def MEM_16K : Nat := MEM_1K * 16

def MEM_48K : Nat := MEM_1K * 48

/-- `std::mem::size_of::<SnapshotHeader>()` for the packed 27-byte header. -/
def HEADER_SIZE : Nat := 27

inductive SnapshotType where
  | Snapshot48 : SnapshotType
  | Snapshot128 : SnapshotType
deriving DecidableEq

/-- The 27-byte snapshot header (CPU registers), fields as in the source. -/
structure SnapshotHeader where
  i : Nat
  hl_prime : Nat
  de_prime : Nat
  bc_prime : Nat
  af_prime : Nat
  hl : Nat
  de : Nat
  bc : Nat
  iy : Nat
  ix : Nat
  interrupt : Nat
  r : Nat
  af : Nat
  sp : Nat
  int_mode : Nat
  border_color : Nat
deriving DecidableEq

/-- The 4-byte 128K extension: program counter, 0x7FFD register, TR-DOS state. -/
structure SnapshotExtension where
  pc : Nat
  x7ffd : Nat
  tr_dos : Nat
deriving DecidableEq

/-- A 16 KiB memory bank (`Vec<u8>`), as a function from offsets to bytes. -/
def Bank : Type := Nat → Nat

/-- The `mapping: [u8; 3]` page table of the source. -/
structure Mapping where
  s0 : Nat
  s1 : Nat
  s2 : Nat
deriving DecidableEq

/-- Array indexing `mapping[k]`; callers only ever use `k` in `{0, 1, 2}`. -/
def Mapping.get (m : Mapping) (k : Nat) : Nat :=
  match k with
  | 0 => m.s0
  | 1 => m.s1
  | _ => m.s2

/-- The `Snapshot` aggregate of the source. -/
structure Snapshot where
  snapshot_type : SnapshotType
  header : SnapshotHeader
  extension : Option SnapshotExtension
  banks : List Bank
  mapping : Mapping

/-- An input byte buffer (`Vec<u8>`): a length and a contents function. -/
structure Buf where
  len : Nat
  data : Nat → Nat

/-- Checked indexing `bin[idx]`: `none` models the out-of-bounds panic. -/
def Buf.get? (bin : Buf) (idx : Nat) : Option Nat :=
  if idx < bin.len then some (bin.data idx) else none

/-- `u16::from_le_bytes([bin[idx], bin[idx+1]])` with checked indexing. -/
def Buf.read16? (bin : Buf) (idx : Nat) : Option Nat := do
  let lo ← bin.get? idx
  let hi ← bin.get? (idx + 1)
  some (lo + 256 * hi)

/-- `Snapshot::poke` (src/lib.rs:118): write a byte through the page table.
Panics (`none`) for addresses below 0x4000 and for out-of-range bank
indices in the mapping. -/
def Snapshot.poke (s : Snapshot) (address value : Nat) : Option Snapshot :=
  if address < 0x4000 then
    none
  else
    let bank_index := ((address >>> 14) &&& 0x03) - 1
    match s.banks[s.mapping.get bank_index]? with
    | some bank =>
        some { s with
          banks := s.banks.set (s.mapping.get bank_index)
            (Function.update bank (address &&& 0x3FFF) value) }
    | none => none

/-- `Snapshot::peek` (src/lib.rs:129): read a byte through the page table;
addresses below 0x4000 read as 0xFF. -/
def Snapshot.peek (s : Snapshot) (address : Nat) : Option Nat :=
  if address < 0x4000 then
    some 0xFF
  else
    let bank_index := ((address >>> 14) &&& 0x03) - 1
    match s.banks[s.mapping.get bank_index]? with
    | some bank => some (bank (address &&& 0x3FFF))
    | none => none

/-- `Snapshot::peek_word` (src/lib.rs:140): little-endian 16-bit read;
address 0xFFFF is a fatal fault. -/
def Snapshot.peek_word (s : Snapshot) (address : Nat) : Option Nat :=
  if address = 0xFFFF then
    none
  else do
    let lo ← s.peek address
    let hi ← s.peek (address + 1)
    some (lo ||| (hi <<< 8))

/-- `Snapshot::poke_word` (src/lib.rs:150): little-endian 16-bit write;
address 0xFFFF is a fatal fault. -/
def Snapshot.poke_word (s : Snapshot) (address value : Nat) : Option Snapshot :=
  if address = 0xFFFF then
    none
  else do
    let s1 ← s.poke address (value &&& 0xFF)
    s1.poke (address + 1) ((value >>> 8) &&& 0xFF)

/-- `Snapshot::write_0x7ffd` (src/lib.rs:159): panics on a 48K snapshot
or a missing extension; otherwise stores the value and remaps slot 2. -/
def Snapshot.write_0x7ffd (s : Snapshot) (value : Nat) : Option Snapshot :=
  if s.snapshot_type ≠ SnapshotType.Snapshot128 then
    none
  else
    match s.extension with
    | none => none
    | some e =>
        some { s with
          extension := some { e with x7ffd := value },
          mapping := { s.mapping with s2 := value &&& 0x07 } }

/-- `Snapshot::bank_peek` (src/lib.rs:171): read from a bank directly;
panics (`none`) for an out-of-range bank index. -/
def Snapshot.bank_peek (s : Snapshot) (bank address : Nat) : Option Nat :=
  match s.banks[bank]? with
  | some b => some (b (address &&& 0x3FFF))
  | none => none

/-- `Snapshot::bank_poke` (src/lib.rs:183): write to a bank directly;
panics (`none`) for an out-of-range bank index. -/
def Snapshot.bank_poke (s : Snapshot) (bank address value : Nat) : Option Snapshot :=
  match s.banks[bank]? with
  | some b =>
      some { s with
        banks := s.banks.set bank (Function.update b (address &&& 0x3FFF) value) }
  | none => none

/-- `Snapshot::bank_poke_word` (src/lib.rs:194).  Note that the source
tests `address == 0xFFFF` (the raw argument), not the in-bank offset. -/
def Snapshot.bank_poke_word (s : Snapshot) (bank address value : Nat) (wrap : Bool) :
    Option Snapshot :=
  if bank ≥ s.banks.length then
    none
  else do
    let s1 ← s.bank_poke bank address (value &&& 0xFF)
    let ba : Nat × Nat :=
      if address = 0xFFFF then
        (if wrap then bank else bank + 1, 0)
      else
        (bank, address + 1)
    s1.bank_poke ba.1 ba.2 ((value >>> 8) &&& 0xFF)

/-- `Snapshot::bank_peek_word` (src/lib.rs:215).  Note that the source
tests `address == 0xFFFF` (the raw argument), not the in-bank offset. -/
def Snapshot.bank_peek_word (s : Snapshot) (bank address : Nat) (wrap : Bool) :
    Option Nat :=
  if bank ≥ s.banks.length then
    none
  else do
    let low ← s.bank_peek bank address
    let ba : Nat × Nat :=
      if address = 0xFFFF then
        (if wrap then bank else bank + 1, 0)
      else
        (bank, address + 1)
    let high ← s.bank_peek ba.1 ba.2
    some ((high <<< 8) ||| low)

/-- An all-zero 16 KiB bank, `vec![0u8; MEM_16K]`. -/
def zeroBank : Bank := fun _ => 0

/-- Decode of the 27 header fields (src/lib.rs:345-362), with every
index checked against the buffer length. -/
def decodeHeader (bin : Buf) : Option SnapshotHeader := do
  let i ← bin.get? 0
  let hl_prime ← bin.read16? 1
  let de_prime ← bin.read16? 3
  let bc_prime ← bin.read16? 5
  let af_prime ← bin.read16? 7
  let hl ← bin.read16? 9
  let de ← bin.read16? 11
  let bc ← bin.read16? 13
  let iy ← bin.read16? 15
  let ix ← bin.read16? 17
  let interrupt ← bin.get? 19
  let r ← bin.get? 20
  let af ← bin.read16? 21
  let sp ← bin.read16? 23
  let int_mode ← bin.get? 25
  let border_color ← bin.get? 26
  some ⟨i, hl_prime, de_prime, bc_prime, af_prime, hl, de, bc, iy, ix,
        interrupt, r, af, sp, int_mode, border_color⟩

/-- `bank[0..MEM_16K].copy_from_slice(&bin[src..src + MEM_16K])`: the
slice panics (`none`) unless `src + MEM_16K ≤ bin.len`. -/
def copyChunk (bin : Buf) (src : Nat) : Option Bank :=
  if src + MEM_16K ≤ bin.len then some (fun i => bin.data (src + i)) else none

/-- `vec![0, 1, 3, 4, 6, 7]` with the slot-2 bank retained out
(src/lib.rs:324-325). -/
def potentialBanks (c : Nat) : List Nat :=
  [0, 1, 3, 4, 6, 7].filter (fun x => x ≠ c)

/-- The fill loop of src/lib.rs:328-331: each listed bank receives the
next 16 KiB chunk of the buffer, starting at `idx`. -/
def fillBanks (bin : Buf) : Nat → List Nat → List Bank → Option (List Bank)
  | _, [], banks => some banks
  | idx, b :: rest, banks =>
      match copyChunk bin idx with
      | none => none
      | some chunk => fillBanks bin (idx + MEM_16K) rest (banks.set b chunk)

/-- `Snapshot::try_from(Vec<u8>)` (src/lib.rs:286-368).  The source's
`Result` error type is `FromUtf8Error` and no `Err` is ever built, so
the codomain is `Option Snapshot`: `none` models a panic (all of which
arise from unchecked indexing/slicing in the source). -/
def Snapshot.tryFrom (bin : Buf) : Option Snapshot := do
  if bin.len > MEM_48K + HEADER_SIZE then
    let pc ← bin.read16? 49179
    let x7ffd ← bin.get? 49181
    let tr_dos ← bin.get? 49182
    let c := x7ffd &&& 0x07
    let banks0 : List Bank := List.replicate 8 zeroBank
    let chunk1 ← copyChunk bin HEADER_SIZE
    let chunk2 ← copyChunk bin (HEADER_SIZE + MEM_16K)
    let chunk3 ← copyChunk bin (HEADER_SIZE + 2 * MEM_16K)
    let banks1 := ((banks0.set 5 chunk1).set 2 chunk2).set c chunk3
    let banks2 ← fillBanks bin (HEADER_SIZE + MEM_48K + 4) (potentialBanks c) banks1
    let header ← decodeHeader bin
    some ⟨SnapshotType.Snapshot128, header, some ⟨pc, x7ffd, tr_dos⟩, banks2, ⟨5, 2, c⟩⟩
  else
    let b0 ← copyChunk bin HEADER_SIZE
    let b1 ← copyChunk bin (HEADER_SIZE + MEM_16K)
    let b2 ← copyChunk bin (HEADER_SIZE + 2 * MEM_16K)
    let header ← decodeHeader bin
    some ⟨SnapshotType.Snapshot48, header, none, [b0, b1, b2], ⟨0, 1, 2⟩⟩

/-- `s.mapping` only holds valid bank indices (the decoder establishes this). -/
def Snapshot.validMapping (s : Snapshot) : Prop :=
  s.mapping.s0 < s.banks.length ∧ s.mapping.s1 < s.banks.length ∧
    s.mapping.s2 < s.banks.length

/-- An all-zero header, for concrete witness snapshots. -/
def zeroHeader : SnapshotHeader :=
  ⟨0, 0, 0, 0, 0, 0, 0, 0, 0, 0, 0, 0, 0, 0, 0, 0⟩

/-- A concrete 48K-shaped snapshot with three zero banks. -/
def snap48zero : Snapshot :=
  ⟨SnapshotType.Snapshot48, zeroHeader, none, [zeroBank, zeroBank, zeroBank], ⟨0, 1, 2⟩⟩

/-- A concrete 128K-shaped snapshot with just two zero banks, for exercising
the bank-relative word accessors at a bank boundary. -/
def snap2banks : Snapshot :=
  ⟨SnapshotType.Snapshot128, zeroHeader, some ⟨0, 0, 0⟩, [zeroBank, zeroBank], ⟨0, 1, 0⟩⟩

/-- A concrete 128K-shaped snapshot with eight zero banks. -/
def snap128zero : Snapshot :=
  ⟨SnapshotType.Snapshot128, zeroHeader, some ⟨0, 0, 0⟩, List.replicate 8 zeroBank, ⟨5, 2, 0⟩⟩

/-! ### Arithmetic helpers for the address translation -/

theorem land_0x3FFF (x : Nat) : x &&& 0x3FFF = x % 16384 := by
  have h : (0x3FFF : Nat) = 2 ^ 14 - 1 := by norm_num
  rw [h, Nat.and_pow_two_sub_one_eq_mod]

theorem land_three (x : Nat) : x &&& 0x03 = x % 4 := by
  have h : (0x03 : Nat) = 2 ^ 2 - 1 := by norm_num
  rw [h, Nat.and_pow_two_sub_one_eq_mod]

theorem land_seven_lt (x : Nat) : x &&& 0x07 < 8 :=
  Nat.and_lt_two_pow x (show (7 : Nat) < 2 ^ 3 by norm_num)

theorem shiftRight14_eq (x : Nat) : x >>> 14 = x / 16384 := by
  rw [Nat.shiftRight_eq_div_pow]

/-- The slot computed by `peek`/`poke` as plain division and remainder. -/
theorem bankIndex_eq (addr : Nat) :
    ((addr >>> 14) &&& 0x03) - 1 = addr / 16384 % 4 - 1 := by
  rw [shiftRight14_eq, land_three]

/-- For mapped addresses the computed slot is 0, 1 or 2. -/
theorem bankIndex_cases (addr : Nat) (h1 : 0x4000 ≤ addr) (h2 : addr ≤ 0xFFFF) :
    ((addr >>> 14) &&& 0x03) - 1 = 0 ∨ ((addr >>> 14) &&& 0x03) - 1 = 1 ∨
      ((addr >>> 14) &&& 0x03) - 1 = 2 := by
  rw [bankIndex_eq]
  omega

theorem mapping_get_lt (s : Snapshot) (k : Nat) (hk : k < 3)
    (hv : s.validMapping) : s.mapping.get k < s.banks.length := by
  obtain ⟨h0, h1, h2⟩ := hv
  interval_cases k <;> simpa [Mapping.get]

/-- `peek` at a mapped address is exactly `bank_peek` on the mapped bank. -/
theorem peek_eq_bank_peek (s : Snapshot) (addr : Nat) (h1 : 0x4000 ≤ addr) :
    s.peek addr =
      s.bank_peek (s.mapping.get (((addr >>> 14) &&& 0x03) - 1)) (addr &&& 0x3FFF) := by
  have hmask : (addr &&& 0x3FFF) &&& 0x3FFF = addr &&& 0x3FFF := by
    rw [land_0x3FFF, land_0x3FFF]
    omega
  simp only [Snapshot.peek, Snapshot.bank_peek, if_neg (by omega : ¬ addr < 0x4000), hmask]

/-! ### Claim C1 -/

/-- Claim C1: for every snapshot state (hence in particular after decoding
and after every subsequent `poke`, `bank_poke`, `write_0x7ffd` or word
write), `peek` on 0xC000-0xFFFF agrees with `bank_peek (mapping[2], addr &
0x3FFF)`, `peek` on 0x4000-0x7FFF with slot 0, and `peek` on 0x8000-0xBFFF
with slot 1. -/
theorem peek_agrees_with_bank_peek (s : Snapshot) (addr : Nat) :
    (0xC000 ≤ addr → addr ≤ 0xFFFF →
      s.peek addr = s.bank_peek (s.mapping.get 2) (addr &&& 0x3FFF)) ∧
    (0x4000 ≤ addr → addr ≤ 0x7FFF →
      s.peek addr = s.bank_peek (s.mapping.get 0) (addr &&& 0x3FFF)) ∧
    (0x8000 ≤ addr → addr ≤ 0xBFFF →
      s.peek addr = s.bank_peek (s.mapping.get 1) (addr &&& 0x3FFF)) := by
  refine ⟨fun h1 h2 => ?_, fun h1 h2 => ?_, fun h1 h2 => ?_⟩
  · have hbi : ((addr >>> 14) &&& 0x03) - 1 = 2 := by rw [bankIndex_eq]; omega
    rw [peek_eq_bank_peek s addr (by omega), hbi]
  · have hbi : ((addr >>> 14) &&& 0x03) - 1 = 0 := by rw [bankIndex_eq]; omega
    rw [peek_eq_bank_peek s addr (by omega), hbi]
  · have hbi : ((addr >>> 14) &&& 0x03) - 1 = 1 := by rw [bankIndex_eq]; omega
    rw [peek_eq_bank_peek s addr (by omega), hbi]

theorem peek_agrees_with_bank_peek_witness :
    snap48zero.peek 0xC123 = snap48zero.bank_peek (snap48zero.mapping.get 2) (0xC123 &&& 0x3FFF) ∧
    snap48zero.peek 0x4123 = snap48zero.bank_peek (snap48zero.mapping.get 0) (0x4123 &&& 0x3FFF) ∧
    snap48zero.peek 0x8123 = snap48zero.bank_peek (snap48zero.mapping.get 1) (0x8123 &&& 0x3FFF) :=
  ⟨(peek_agrees_with_bank_peek snap48zero 0xC123).1 (by norm_num) (by norm_num),
   (peek_agrees_with_bank_peek snap48zero 0x4123).2.1 (by norm_num) (by norm_num),
   (peek_agrees_with_bank_peek snap48zero 0x8123).2.2 (by norm_num) (by norm_num)⟩

/-! ### Claim C7 -/

/-- Claim C7: for every address strictly below 0x4000, `peek` returns the
fixed byte 0xFF whatever the banks and page table hold, and `poke` is a
fatal fault (modelled `none`) for every value, leaving the snapshot
unchanged (the fault aborts before any mutation). -/
theorem peek_poke_below_0x4000 (s : Snapshot) (addr v : Nat) (h : addr < 0x4000) :
    s.peek addr = some 0xFF ∧ s.poke addr v = none := by
  constructor <;> simp [Snapshot.peek, Snapshot.poke, h]

theorem peek_poke_below_0x4000_witness :
    snap48zero.peek 0x3FFF = some 0xFF ∧ snap48zero.poke 0x3FFF 7 = none :=
  peek_poke_below_0x4000 snap48zero 0x3FFF 7 (by norm_num)

/-! ### Claim C2 -/

/-- Claim C2: on a snapshot whose page-table entries are valid bank
indices (as every decoded snapshot is), for every address in
0x4000-0xFFFF and every value, `poke` succeeds and a following `peek` at
the same address returns the value just written. -/
theorem poke_peek_roundtrip (s : Snapshot) (addr v : Nat)
    (hv : s.validMapping) (h1 : 0x4000 ≤ addr) (h2 : addr ≤ 0xFFFF) :
    ∃ s2, s.poke addr v = some s2 ∧ s2.peek addr = some v := by
  have hk3 : ((addr >>> 14) &&& 0x03) - 1 < 3 := by
    rcases bankIndex_cases addr h1 h2 with h | h | h <;> omega
  have hm : s.mapping.get (((addr >>> 14) &&& 0x03) - 1) < s.banks.length :=
    mapping_get_lt s _ hk3 hv
  obtain ⟨b, hb⟩ : ∃ b, s.banks[s.mapping.get (((addr >>> 14) &&& 0x03) - 1)]? = some b :=
    ⟨_, List.getElem?_eq_getElem hm⟩
  refine ⟨{ s with banks := s.banks.set (s.mapping.get (((addr >>> 14) &&& 0x03) - 1)) (Function.update b (addr &&& 0x3FFF) v) }, ?_, ?_⟩
  · simp only [Snapshot.poke, if_neg (by omega : ¬ addr < 0x4000), hb]
  · simp only [Snapshot.peek, if_neg (by omega : ¬ addr < 0x4000)]
    rw [List.getElem?_set_self (by simpa using hm)]
    simp [Function.update]

theorem poke_peek_roundtrip_witness :
    0x4000 ≤ 0xA000 ∧ ∃ s2, snap48zero.poke 0xA000 0x5A = some s2 ∧
      s2.peek 0xA000 = some 0x5A :=
  ⟨by norm_num,
   poke_peek_roundtrip snap48zero 0xA000 0x5A
     (by constructor <;> [decide; constructor <;> decide]) (by norm_num) (by norm_num)⟩

/-! ### Claim C9 -/

/-- Claim C9: `write_0x7ffd` is a fatal fault on a 48K snapshot; on a
128K snapshot (which, as decoded, carries an extension) it stores the
value into the extension's paging-control byte and sets page-table slot
2 to `value & 0x07`, leaving slots 0 and 1 and the banks unchanged, so
with 8 banks and valid slots 0/1 every slot stays a valid bank index,
for every byte value. -/
theorem write_0x7ffd_behaviour (s : Snapshot) (v : Nat) :
    (s.snapshot_type = SnapshotType.Snapshot48 → s.write_0x7ffd v = none) ∧
    (∀ e, s.snapshot_type = SnapshotType.Snapshot128 → s.extension = some e →
      s.banks.length = 8 → s.mapping.s0 < 8 → s.mapping.s1 < 8 →
      ∃ s2, s.write_0x7ffd v = some s2 ∧
        s2.extension = some ⟨e.pc, v, e.tr_dos⟩ ∧
        s2.mapping.s2 = v &&& 0x07 ∧
        s2.mapping.s0 = s.mapping.s0 ∧ s2.mapping.s1 = s.mapping.s1 ∧
        s2.banks = s.banks ∧ s2.validMapping) := by
  constructor
  · intro h
    simp [Snapshot.write_0x7ffd, h]
  · intro e ht he hlen h0 h1
    refine ⟨{ s with extension := some ⟨e.pc, v, e.tr_dos⟩, mapping := { s.mapping with s2 := v &&& 0x07 } }, ?_, rfl, rfl, rfl, rfl, rfl, ?_⟩
    · simp [Snapshot.write_0x7ffd, ht, he]
    · refine ⟨?_, ?_, ?_⟩ <;> simp [Snapshot.validMapping, hlen, h0, h1, land_seven_lt]

theorem write_0x7ffd_behaviour_witness :
    (snap48zero.write_0x7ffd 3 = none) ∧
    ∃ s2, snap128zero.write_0x7ffd 3 = some s2 ∧
      s2.extension = some ⟨0, 3, 0⟩ ∧ s2.mapping.s2 = 3 &&& 0x07 := by
  have h48 := (write_0x7ffd_behaviour snap48zero 3).1 rfl
  obtain ⟨s2, hw, hext, hs2, -⟩ :=
    (write_0x7ffd_behaviour snap128zero 3).2 ⟨0, 0, 0⟩ rfl rfl (by decide)
      (by decide) (by decide)
  exact ⟨h48, s2, hw, hext, hs2⟩

/-! ### Helper lemmas for the 16-bit logical accessors -/

/-- A successful `poke` changes only the banks, and preserves their number. -/
theorem poke_preserves {s s2 : Snapshot} {a v : Nat} (h : s.poke a v = some s2) :
    s2.mapping = s.mapping ∧ s2.banks.length = s.banks.length := by
  simp only [Snapshot.poke] at h
  split at h
  · exact Option.noConfusion h
  · split at h
    · cases Option.some.inj h
      exact ⟨rfl, by simp⟩
    · exact Option.noConfusion h

theorem poke_preserves_validMapping {s s2 : Snapshot} {a v : Nat}
    (h : s.poke a v = some s2) (hv : s.validMapping) : s2.validMapping := by
  obtain ⟨hm, hl⟩ := poke_preserves h
  unfold Snapshot.validMapping at hv ⊢
  rw [hm, hl]
  exact hv

/-- With a valid page table, `peek` never faults on a 16-bit address. -/
theorem peek_some_of_valid (s : Snapshot) (addr : Nat) (hv : s.validMapping)
    (h2 : addr ≤ 0xFFFF) : ∃ x, s.peek addr = some x := by
  by_cases h1 : addr < 0x4000
  · exact ⟨0xFF, by simp [Snapshot.peek, h1]⟩
  · have hk3 : ((addr >>> 14) &&& 0x03) - 1 < 3 := by
      rcases bankIndex_cases addr (by omega) h2 with h | h | h <;> omega
    have hm := mapping_get_lt s _ hk3 hv
    have hs : (s.peek addr).isSome := by
      simp only [Snapshot.peek, if_neg h1, List.getElem?_eq_getElem hm, Option.isSome_some]
    exact Option.isSome_iff_exists.mp hs

/-- With a valid page table, `poke` succeeds on every mapped 16-bit address. -/
theorem poke_some_of_valid (s : Snapshot) (addr v : Nat) (hv : s.validMapping)
    (h1 : 0x4000 ≤ addr) (h2 : addr ≤ 0xFFFF) : ∃ s2, s.poke addr v = some s2 := by
  have hk3 : ((addr >>> 14) &&& 0x03) - 1 < 3 := by
    rcases bankIndex_cases addr h1 h2 with h | h | h <;> omega
  have hm := mapping_get_lt s _ hk3 hv
  have hs : (s.poke addr v).isSome := by
    simp only [Snapshot.poke, if_neg (by omega : ¬ addr < 0x4000),
      List.getElem?_eq_getElem hm, Option.isSome_some]
  exact Option.isSome_iff_exists.mp hs

/-- Reading back the address just written returns the written value. -/
theorem peek_after_poke_same {s s2 : Snapshot} {a v : Nat} (h : s.poke a v = some s2) :
    s2.peek a = some v := by
  by_cases halt : a < 0x4000
  · simp [Snapshot.poke, halt] at h
  · rcases hg : s.banks[s.mapping.get (((a >>> 14) &&& 0x03) - 1)]? with _ | b
    · simp [Snapshot.poke, halt, hg] at h
    · simp only [Snapshot.poke, if_neg halt, hg] at h
      cases Option.some.inj h
      have hlt : s.mapping.get (((a >>> 14) &&& 0x03) - 1) < s.banks.length := by
        by_contra hge
        rw [List.getElem?_eq_none (by omega)] at hg
        cases hg
      simp only [Snapshot.peek, if_neg halt]
      rw [List.getElem?_set_self (by simpa using hlt)]
      simp [Function.update]

/-- A `poke` leaves every logical address with a different in-bank offset
unchanged. -/
theorem peek_after_poke_ne {s s2 : Snapshot} {a1 a2 v : Nat}
    (h : s.poke a2 v = some s2) (hne : a1 &&& 0x3FFF ≠ a2 &&& 0x3FFF) :
    s2.peek a1 = s.peek a1 := by
  by_cases h2lt : a2 < 0x4000
  · simp [Snapshot.poke, h2lt] at h
  · rcases hg : s.banks[s.mapping.get (((a2 >>> 14) &&& 0x03) - 1)]? with _ | b2
    · simp [Snapshot.poke, h2lt, hg] at h
    · simp only [Snapshot.poke, if_neg h2lt, hg] at h
      cases Option.some.inj h
      have hlt : s.mapping.get (((a2 >>> 14) &&& 0x03) - 1) < s.banks.length := by
        by_contra hge
        rw [List.getElem?_eq_none (by omega)] at hg
        cases hg
      by_cases h1lt : a1 < 0x4000
      · simp [Snapshot.peek, h1lt]
      · simp only [Snapshot.peek, if_neg h1lt]
        by_cases hmm : s.mapping.get (((a1 >>> 14) &&& 0x03) - 1) =
            s.mapping.get (((a2 >>> 14) &&& 0x03) - 1)
        · rw [hmm, List.getElem?_set_self (by simpa using hlt), hg]
          simp [Function.update_noteq hne]
        · rw [List.getElem?_set_ne (fun he => hmm he.symm)]

/-! ### Claim C8 (corrected) -/

/-- Claim C8 counterexample: `poke_word` at address 0x0000 faults even
though 0x0000 is not 0xFFFF, because the low-byte `poke` below 0x4000
panics; so the two word operations do not fault exactly when the address
is 0xFFFF. -/
theorem poke_word_faults_at_zero :
    snap48zero.poke_word 0x0000 0x1234 = none ∧ (0x0000 : Nat) ≠ 0xFFFF := by
  refine ⟨?_, by decide⟩
  rfl

/-- Claim C8 amended: on a snapshot with a valid page table,
`peek_word` returns `peek addr` as the low byte combined with
`peek (addr + 1)` shifted left 8, and `poke_word` writes the low byte of
the value at `addr` and the high byte at `addr + 1`; `peek_word` faults
exactly when `addr = 0xFFFF`, while `poke_word` faults exactly when
`addr = 0xFFFF` or additionally when `addr < 0x4000` (the low-byte
`poke` below the mapped window panics).  Neither ever wraps around. -/
theorem word_ops_fault_conditions (s : Snapshot) (addr v : Nat)
    (hv : s.validMapping) (haddr : addr ≤ 0xFFFF) :
    (s.peek_word addr = none ↔ addr = 0xFFFF) ∧
    (s.poke_word addr v = none ↔ (addr = 0xFFFF ∨ addr < 0x4000)) ∧
    (addr ≠ 0xFFFF → ∃ lo hi, s.peek addr = some lo ∧ s.peek (addr + 1) = some hi ∧
      s.peek_word addr = some (lo ||| (hi <<< 8))) ∧
    (0x4000 ≤ addr → addr ≠ 0xFFFF →
      ∃ s2, s.poke_word addr v = some s2 ∧
        s2.peek addr = some (v &&& 0xFF) ∧
        s2.peek (addr + 1) = some ((v >>> 8) &&& 0xFF)) := by
  by_cases haf : addr = 0xFFFF
  · refine ⟨by simp [Snapshot.peek_word, haf], by simp [Snapshot.poke_word, haf],
      fun hne => absurd haf hne, fun _ hne => absurd haf hne⟩
  · obtain ⟨lo, hlo⟩ := peek_some_of_valid s addr hv haddr
    obtain ⟨hi, hhi⟩ := peek_some_of_valid s (addr + 1) hv (by omega)
    have hpw : s.peek_word addr = some (lo ||| (hi <<< 8)) := by
      simp [Snapshot.peek_word, haf, hlo, hhi]
    refine ⟨by simp [hpw, haf], ?_, fun _ => ⟨lo, hi, hlo, hhi, hpw⟩, ?_⟩
    · by_cases hlow : addr < 0x4000
      · have hfault : s.poke addr (v &&& 0xFF) = none := by
          simp [Snapshot.poke, hlow]
        simp [Snapshot.poke_word, haf, hfault, hlow]
      · obtain ⟨s1, hs1⟩ := poke_some_of_valid s addr (v &&& 0xFF) hv (by omega) haddr
        obtain ⟨s2, hs2⟩ := poke_some_of_valid s1 (addr + 1) ((v >>> 8) &&& 0xFF)
          (poke_preserves_validMapping hs1 hv) (by omega) (by omega)
        simp [Snapshot.poke_word, haf, hs1, hs2, hlow]
    · intro hge hne
      obtain ⟨s1, hs1⟩ := poke_some_of_valid s addr (v &&& 0xFF) hv hge haddr
      obtain ⟨s2, hs2⟩ := poke_some_of_valid s1 (addr + 1) ((v >>> 8) &&& 0xFF)
        (poke_preserves_validMapping hs1 hv) (by omega) (by omega)
      have hmaskne : addr &&& 0x3FFF ≠ (addr + 1) &&& 0x3FFF := by
        rw [land_0x3FFF, land_0x3FFF]
        omega
      refine ⟨s2, ?_, ?_, ?_⟩
      · simp [Snapshot.poke_word, haf, hs1, hs2]
      · rw [peek_after_poke_ne hs2 hmaskne]
        exact peek_after_poke_same hs1
      · exact peek_after_poke_same hs2

theorem word_ops_fault_conditions_witness :
    (snap48zero.peek_word 0xFFFF = none ↔ (0xFFFF : Nat) = 0xFFFF) ∧
    (snap48zero.poke_word 0xFFFF 0 = none ↔ ((0xFFFF : Nat) = 0xFFFF ∨ 0xFFFF < 0x4000)) ∧
    ((0xFFFF : Nat) ≠ 0xFFFF → ∃ lo hi, snap48zero.peek 0xFFFF = some lo ∧
      snap48zero.peek 0x10000 = some hi ∧
      snap48zero.peek_word 0xFFFF = some (lo ||| (hi <<< 8))) ∧
    (0x4000 ≤ 0xFFFF → (0xFFFF : Nat) ≠ 0xFFFF →
      ∃ s2, snap48zero.poke_word 0xFFFF 0 = some s2 ∧
        s2.peek 0xFFFF = some (0 &&& 0xFF) ∧
        s2.peek 0x10000 = some ((0 >>> 8) &&& 0xFF)) :=
  word_ops_fault_conditions snap48zero 0xFFFF 0
    (by refine ⟨?_, ?_, ?_⟩ <;> decide) (by norm_num)

/-! ### Claim C3 (code bug) -/

/-- Claim C3 evaluation at the failing input: `bank_poke_word` with bank
0, address 0x3FFF (the last offset in a bank) and `wrap = false` writes
the high byte at offset 0 of bank 0 - the same bank - and leaves bank 1
untouched, because the source consults `wrap` only when the raw address
equals 0xFFFF, contradicting its own doc comment ("for pokes at 0x3FFF
it will poke into the next bank ... depending on the wrap parameter"). -/
theorem bank_poke_word_wrap_ignored_at_0x3FFF :
    ((snap2banks.bank_poke_word 0 0x3FFF 0xABCD false).bind
        (fun s2 => s2.bank_peek 0 0x3FFF) = some 0xCD) ∧
    ((snap2banks.bank_poke_word 0 0x3FFF 0xABCD false).bind
        (fun s2 => s2.bank_peek 0 0) = some 0xAB) ∧
    ((snap2banks.bank_poke_word 0 0x3FFF 0xABCD false).bind
        (fun s2 => s2.bank_peek 1 0) = some 0x00) := by
  refine ⟨?_, ?_, ?_⟩ <;> decide

/-! ### Helper lemmas for the decoder -/

theorem mem_consts : MEM_48K + HEADER_SIZE = 49179 ∧ MEM_16K = 16384 := by
  norm_num [MEM_48K, MEM_16K, MEM_1K, HEADER_SIZE]

theorem Buf.get?_eq_some {bin : Buf} {i x : Nat} :
    bin.get? i = some x ↔ i < bin.len ∧ x = bin.data i := by
  unfold Buf.get?
  split <;> simp_all [eq_comm]

theorem copyChunk_eq_some {bin : Buf} {src : Nat} {b : Bank} :
    copyChunk bin src = some b ↔
      src + MEM_16K ≤ bin.len ∧ b = fun i => bin.data (src + i) := by
  unfold copyChunk
  split <;> simp_all [eq_comm]

theorem fillBanks_length {bin : Buf} {l : List Nat} {idx : Nat}
    {banks banks' : List Bank} (h : fillBanks bin idx l banks = some banks') :
    banks'.length = banks.length := by
  induction l generalizing idx banks with
  | nil =>
    simp only [fillBanks, Option.some.injEq] at h
    rw [← h]
  | cons b rest ih =>
    rcases hc : copyChunk bin idx with - | chunk
    · simp [fillBanks, hc] at h
    · simp only [fillBanks, hc] at h
      have := ih h
      simpa using this

theorem fillBanks_minLen {bin : Buf} {l : List Nat} {idx : Nat}
    {banks banks' : List Bank} (h : fillBanks bin idx l banks = some banks')
    (hne : l ≠ []) : idx + l.length * MEM_16K ≤ bin.len := by
  induction l generalizing idx banks with
  | nil => exact absurd rfl hne
  | cons b rest ih =>
    rcases hc : copyChunk bin idx with - | chunk
    · simp [fillBanks, hc] at h
    · simp only [fillBanks, hc] at h
      obtain ⟨hlen, -⟩ := copyChunk_eq_some.mp hc
      rcases rest with - | ⟨b2, rest2⟩
      · simpa using hlen
      · have hrec := ih h (by simp)
        have hmul : (rest2.length + 1 + 1) * MEM_16K =
            (rest2.length + 1) * MEM_16K + MEM_16K := by ring
        simp only [List.length_cons] at hrec ⊢
        rw [hmul]
        omega

theorem fillBanks_not_mem {bin : Buf} {l : List Nat} {idx : Nat}
    {banks banks' : List Bank} (h : fillBanks bin idx l banks = some banks')
    {b : Nat} (hb : b ∉ l) : banks'[b]? = banks[b]? := by
  induction l generalizing idx banks with
  | nil =>
    simp only [fillBanks, Option.some.injEq] at h
    rw [← h]
  | cons b2 rest ih =>
    rcases hc : copyChunk bin idx with - | chunk
    · simp [fillBanks, hc] at h
    · simp only [fillBanks, hc] at h
      have hbr : b ∉ rest := fun hm => hb (List.mem_cons_of_mem _ hm)
      have hbne : b2 ≠ b := fun he => hb (he ▸ List.mem_cons_self _ _)
      rw [ih h hbr, List.getElem?_set_ne hbne]

theorem fillBanks_nth {bin : Buf} {l : List Nat} {idx : Nat}
    {banks banks' : List Bank} (hnd : l.Nodup)
    (hlt : ∀ x ∈ l, x < banks.length)
    (h : fillBanks bin idx l banks = some banks') :
    ∀ (j : Nat) (hj : j < l.length),
      ∃ f, banks'[l.get ⟨j, hj⟩]? = some f ∧
        ∀ k, f k = bin.data (idx + j * MEM_16K + k) := by
  induction l generalizing idx banks with
  | nil => intro j hj; exact absurd hj (by simp)
  | cons b rest ih =>
    rcases hc : copyChunk bin idx with - | chunk
    · simp [fillBanks, hc] at h
    · simp only [fillBanks, hc] at h
      obtain ⟨hlen, hchunk⟩ := copyChunk_eq_some.mp hc
      obtain ⟨hb_not, hnd_rest⟩ := List.nodup_cons.mp hnd
      intro j hj
      cases j with
      | zero =>
        have hbl : b < banks.length := hlt b (List.mem_cons_self _ _)
        have hkeep : banks'[b]? = (banks.set b chunk)[b]? := fillBanks_not_mem h hb_not
        rw [List.getElem?_set_self (by simpa using hbl)] at hkeep
        refine ⟨chunk, by simpa using hkeep, fun k => ?_⟩
        have harith : idx + 0 * MEM_16K + k = idx + k := by ring
        rw [hchunk, harith]
      | succ j =>
        have hlt2 : ∀ x ∈ rest, x < (banks.set b chunk).length := by
          intro x hx
          simpa using hlt x (List.mem_cons_of_mem _ hx)
        obtain ⟨f, hf, hfk⟩ := ih hnd_rest hlt2 h j (by simpa using Nat.lt_of_succ_lt_succ hj)
        refine ⟨f, by simpa using hf, fun k => ?_⟩
        have harith : idx + (j + 1) * MEM_16K + k = idx + MEM_16K + j * MEM_16K + k := by ring
        rw [hfk, harith]

/-- The bank list assembled by the 128K branch before the fill loop. -/
def banksBeforeFill (bin : Buf) (c : Nat) : List Bank :=
  (((List.replicate 8 zeroBank).set 5 (fun i => bin.data (HEADER_SIZE + i))).set 2
    (fun i => bin.data (HEADER_SIZE + MEM_16K + i))).set c
    (fun i => bin.data (HEADER_SIZE + 2 * MEM_16K + i))

/-- Inversion of the 128K decode branch. -/
theorem tryFrom_128_inv {bin : Buf} {s : Snapshot}
    (hlen : MEM_48K + HEADER_SIZE < bin.len)
    (h : Snapshot.tryFrom bin = some s) :
    s.snapshot_type = SnapshotType.Snapshot128 ∧
    (∃ e : SnapshotExtension, s.extension = some e ∧ e.x7ffd = bin.data 49181) ∧
    s.mapping = ⟨5, 2, bin.data 49181 &&& 0x07⟩ ∧
    fillBanks bin (HEADER_SIZE + MEM_48K + 4)
      (potentialBanks (bin.data 49181 &&& 0x07))
      (banksBeforeFill bin (bin.data 49181 &&& 0x07)) = some s.banks := by
  unfold Snapshot.tryFrom at h
  rw [if_pos hlen] at h
  rcases hpc : bin.read16? 49179 with - | pc
  · simp [hpc] at h
  · simp only [hpc, Option.bind_eq_bind, Option.some_bind] at h
    rcases hx7 : bin.get? 49181 with - | x7
    · simp [hx7] at h
    · simp only [hx7, Option.bind_eq_bind, Option.some_bind] at h
      rcases htd : bin.get? 49182 with - | td
      · simp [htd] at h
      · simp only [htd, Option.bind_eq_bind, Option.some_bind] at h
        rcases hc1 : copyChunk bin HEADER_SIZE with - | chunk1
        · simp [hc1] at h
        · simp only [hc1, Option.bind_eq_bind, Option.some_bind] at h
          rcases hc2 : copyChunk bin (HEADER_SIZE + MEM_16K) with - | chunk2
          · simp [hc2] at h
          · simp only [hc2, Option.bind_eq_bind, Option.some_bind] at h
            rcases hc3 : copyChunk bin (HEADER_SIZE + 2 * MEM_16K) with - | chunk3
            · simp [hc3] at h
            · simp only [hc3, Option.bind_eq_bind, Option.some_bind] at h
              rcases hfill : fillBanks bin (HEADER_SIZE + MEM_48K + 4)
                  (potentialBanks (x7 &&& 7))
                  ((((List.replicate 8 zeroBank).set 5 chunk1).set 2 chunk2).set
                    (x7 &&& 7) chunk3) with - | banks2
              · simp at hfill
                simp [hfill] at h
              · simp only [hfill, Option.bind_eq_bind, Option.some_bind] at h
                rcases hhdr : decodeHeader bin with - | hdr
                · simp [hhdr] at h
                · simp only [hhdr, Option.bind_eq_bind, Option.some_bind] at h
                  cases Option.some.inj h
                  obtain ⟨-, hx7v⟩ := Buf.get?_eq_some.mp hx7
                  obtain ⟨-, hc1v⟩ := copyChunk_eq_some.mp hc1
                  obtain ⟨-, hc2v⟩ := copyChunk_eq_some.mp hc2
                  obtain ⟨-, hc3v⟩ := copyChunk_eq_some.mp hc3
                  subst hx7v hc1v hc2v hc3v
                  refine ⟨rfl, ⟨_, rfl, rfl⟩, rfl, ?_⟩
                  simpa [banksBeforeFill] using hfill

/-- Inversion of the 48K decode branch. -/
theorem tryFrom_48_inv {bin : Buf} {s : Snapshot}
    (hlen : ¬ MEM_48K + HEADER_SIZE < bin.len)
    (h : Snapshot.tryFrom bin = some s) :
    s.snapshot_type = SnapshotType.Snapshot48 ∧
    s.extension = none ∧
    s.mapping = ⟨0, 1, 2⟩ ∧
    s.banks = [fun i => bin.data (HEADER_SIZE + i),
      fun i => bin.data (HEADER_SIZE + MEM_16K + i),
      fun i => bin.data (HEADER_SIZE + 2 * MEM_16K + i)] := by
  unfold Snapshot.tryFrom at h
  rw [if_neg hlen] at h
  rcases hb0 : copyChunk bin HEADER_SIZE with - | b0
  · simp [hb0] at h
  · simp only [hb0, Option.bind_eq_bind, Option.some_bind] at h
    rcases hb1 : copyChunk bin (HEADER_SIZE + MEM_16K) with - | b1
    · simp [hb1] at h
    · simp only [hb1, Option.bind_eq_bind, Option.some_bind] at h
      rcases hb2 : copyChunk bin (HEADER_SIZE + 2 * MEM_16K) with - | b2
      · simp [hb2] at h
      · simp only [hb2, Option.bind_eq_bind, Option.some_bind] at h
        rcases hhdr : decodeHeader bin with - | hdr
        · simp [hhdr] at h
        · simp only [hhdr, Option.bind_eq_bind, Option.some_bind] at h
          cases Option.some.inj h
          obtain ⟨-, hb0v⟩ := copyChunk_eq_some.mp hb0
          obtain ⟨-, hb1v⟩ := copyChunk_eq_some.mp hb1
          obtain ⟨-, hb2v⟩ := copyChunk_eq_some.mp hb2
          subst hb0v hb1v hb2v
          exact ⟨rfl, rfl, rfl, rfl⟩

/-- The zero-length buffer. -/
def emptyBuf : Buf := ⟨0, fun _ => 0⟩

/-- An all-zero buffer of exactly the 48K snapshot size. -/
def buf48zero : Buf := ⟨49179, fun _ => 0⟩

/-- An all-zero buffer of the minimal successful 128K snapshot size
(paging control 0, so five extra banks follow the extension). -/
def buf128zero : Buf := ⟨131103, fun _ => 0⟩

/-! ### Claim C4 (code bug) -/

/-- Claim C4 evaluation: for any input shorter than the 27-byte header
plus 48 KiB, decoding is a fatal fault (`none`, modelling the reference
implementation's out-of-bounds slice panic).  No recoverable
`TruncatedInput`/`DecodeError` value exists anywhere in the code: the
`Result` error type is `FromUtf8Error` and no `Err` is ever produced, so
the claimed checked precondition is absent. -/
theorem tryFrom_short_input_faults (bin : Buf)
    (h : bin.len < HEADER_SIZE + MEM_48K) : Snapshot.tryFrom bin = none := by
  have hc := mem_consts
  unfold Snapshot.tryFrom
  rw [if_neg (by omega)]
  rcases h0 : copyChunk bin HEADER_SIZE with - | b0
  · simp [h0]
  · rcases h1 : copyChunk bin (HEADER_SIZE + MEM_16K) with - | b1
    · simp [h0, h1]
    · have h2 : copyChunk bin (HEADER_SIZE + 2 * MEM_16K) = none := by
        unfold copyChunk
        rw [if_neg (by unfold HEADER_SIZE MEM_16K MEM_48K MEM_1K at *; omega)]
      simp [h0, h1, h2]

theorem tryFrom_short_input_faults_witness : Snapshot.tryFrom emptyBuf = none :=
  tryFrom_short_input_faults emptyBuf (by norm_num [emptyBuf, HEADER_SIZE, MEM_48K, MEM_1K])

/-! ### Claim C5 -/

/-- Claim C5: decoding classifies the format purely by length.  Whenever
decoding succeeds: if the buffer exceeds 49179 bytes the snapshot has
format tag Snapshot128, exactly 8 banks and page table
`[5, 2, control & 0x07]` where `control` is the extension's
paging-control byte (read from offset 49181); otherwise it has format
tag Snapshot48, exactly 3 banks and page table `[0, 1, 2]`. -/
theorem tryFrom_format_by_length (bin : Buf) (s : Snapshot)
    (h : Snapshot.tryFrom bin = some s) :
    (49179 < bin.len →
      s.snapshot_type = SnapshotType.Snapshot128 ∧ s.banks.length = 8 ∧
      ∃ e, s.extension = some e ∧ e.x7ffd = bin.data 49181 ∧
        s.mapping = ⟨5, 2, e.x7ffd &&& 0x07⟩) ∧
    (bin.len ≤ 49179 →
      s.snapshot_type = SnapshotType.Snapshot48 ∧ s.banks.length = 3 ∧
      s.mapping = ⟨0, 1, 2⟩) := by
  have hc := mem_consts
  constructor
  · intro hlen
    obtain ⟨ht, ⟨e, he, hev⟩, hm, hfill⟩ := tryFrom_128_inv (by omega) h
    refine ⟨ht, ?_, e, he, hev, by rw [hm, hev]⟩
    have := fillBanks_length hfill
    simpa [banksBeforeFill] using this
  · intro hlen
    obtain ⟨ht, -, hm, hbanks⟩ := tryFrom_48_inv (by omega) h
    exact ⟨ht, by rw [hbanks]; rfl, hm⟩

theorem tryFrom_format_by_length_witness :
    (49179 < buf128zero.len →
      snap128zero.snapshot_type = SnapshotType.Snapshot128 ∧
      snap128zero.banks.length = 8 ∧
      ∃ e, snap128zero.extension = some e ∧ e.x7ffd = buf128zero.data 49181 ∧
        snap128zero.mapping = ⟨5, 2, e.x7ffd &&& 0x07⟩) ∧
    (buf128zero.len ≤ 49179 →
      snap128zero.snapshot_type = SnapshotType.Snapshot48 ∧
      snap128zero.banks.length = 3 ∧ snap128zero.mapping = ⟨0, 1, 2⟩) :=
  tryFrom_format_by_length buf128zero snap128zero rfl

/-- `bank_peek` through a known bank-list entry, inside the 16 KiB range. -/
theorem bank_peek_of_banks (s : Snapshot) (b i : Nat) (f : Bank)
    (hf : s.banks[b]? = some f) (hi : i < MEM_16K) :
    s.bank_peek b i = some (f i) := by
  have hc := mem_consts
  have hmask : i &&& 0x3FFF = i := by
    rw [land_0x3FFF]
    omega
  unfold Snapshot.bank_peek
  rw [hf, hmask]

/-! ### Claim C6 -/

/-- Claim C6: after a successful Larger-format decode, bank 5 holds the
first 16 KiB chunk after the header (unless overwritten by the third
chunk), bank 2 the second chunk (unless overwritten), the bank selected
by the low 3 bits of the paging-control byte holds the third chunk, and
the remaining bank indices - exactly the elements of {0,1,3,4,6,7}
other than that selected bank, in strictly ascending order - hold
consecutive 16 KiB chunks taken from the bytes just after the 4-byte
extension record. -/
theorem tryFrom_larger_distribution (bin : Buf) (s : Snapshot) (c : Nat)
    (hlen : 49179 < bin.len) (h : Snapshot.tryFrom bin = some s)
    (hc : c = bin.data 49181 &&& 0x07) :
    (5 ≠ c → ∀ i, i < MEM_16K →
      s.bank_peek 5 i = some (bin.data (HEADER_SIZE + i))) ∧
    (2 ≠ c → ∀ i, i < MEM_16K →
      s.bank_peek 2 i = some (bin.data (HEADER_SIZE + MEM_16K + i))) ∧
    (∀ i, i < MEM_16K →
      s.bank_peek c i = some (bin.data (HEADER_SIZE + 2 * MEM_16K + i))) ∧
    List.Sorted (· < ·) (potentialBanks c) ∧
    (∀ b, b ∈ potentialBanks c ↔ (b ∈ ([0, 1, 3, 4, 6, 7] : List Nat) ∧ b ≠ c)) ∧
    (∀ j (hj : j < (potentialBanks c).length) (i : Nat), i < MEM_16K →
      s.bank_peek ((potentialBanks c).get ⟨j, hj⟩) i =
        some (bin.data (HEADER_SIZE + MEM_48K + 4 + j * MEM_16K + i))) := by
  have hconsts := mem_consts
  have hc8 : c < 8 := hc ▸ land_seven_lt _
  obtain ⟨-, -, -, hfill⟩ := tryFrom_128_inv (by omega) h
  rw [← hc] at hfill
  have hmem : ∀ b, b ∈ potentialBanks c ↔ (b ∈ ([0, 1, 3, 4, 6, 7] : List Nat) ∧ b ≠ c) := by
    intro b
    simp [potentialBanks]
  have hnd : (potentialBanks c).Nodup := List.Nodup.filter _ (by decide)
  have hsorted : List.Sorted (· < ·) (potentialBanks c) :=
    List.Pairwise.filter _ (by decide)
  have hlen8 : (banksBeforeFill bin c).length = 8 := by
    simp [banksBeforeFill]
  refine ⟨?_, ?_, ?_, hsorted, hmem, ?_⟩
  · intro h5 i hi
    have h5notmem : 5 ∉ potentialBanks c := by
      intro hm
      exact absurd ((hmem 5).mp hm).1 (by decide)
    have hkeep : s.banks[5]? = (banksBeforeFill bin c)[5]? :=
      fillBanks_not_mem hfill h5notmem
    rw [banksBeforeFill, List.getElem?_set_ne (fun he => h5 he.symm),
      List.getElem?_set_ne (by decide : (2 : Nat) ≠ 5),
      List.getElem?_set_self (by simp)] at hkeep
    rw [bank_peek_of_banks s 5 i _ hkeep hi]
  · intro h2 i hi
    have h2notmem : 2 ∉ potentialBanks c := by
      intro hm
      exact absurd ((hmem 2).mp hm).1 (by decide)
    have hkeep : s.banks[2]? = (banksBeforeFill bin c)[2]? :=
      fillBanks_not_mem hfill h2notmem
    rw [banksBeforeFill, List.getElem?_set_ne (fun he => h2 he.symm),
      List.getElem?_set_self (by simp)] at hkeep
    rw [bank_peek_of_banks s 2 i _ hkeep hi]
  · intro i hi
    have hcnotmem : c ∉ potentialBanks c := by
      intro hm
      exact ((hmem c).mp hm).2 rfl
    have hkeep : s.banks[c]? = (banksBeforeFill bin c)[c]? :=
      fillBanks_not_mem hfill hcnotmem
    rw [banksBeforeFill, List.getElem?_set_self (by simp; omega)] at hkeep
    rw [bank_peek_of_banks s c i _ hkeep hi]
  · intro j hj i hi
    have hltb : ∀ x ∈ potentialBanks c, x < (banksBeforeFill bin c).length := by
      intro x hx
      have := ((hmem x).mp hx).1
      rw [hlen8]
      simp only [List.mem_cons, List.not_mem_nil, or_false] at this
      omega
    obtain ⟨f, hf, hfk⟩ := fillBanks_nth hnd hltb hfill j hj
    rw [bank_peek_of_banks s _ i f hf hi, hfk]

theorem tryFrom_larger_distribution_witness :
    snap128zero.bank_peek 5 11 = some (buf128zero.data (HEADER_SIZE + 11)) ∧
    snap128zero.bank_peek 0 11 = some (buf128zero.data (HEADER_SIZE + 2 * MEM_16K + 11)) ∧
    List.Sorted (· < ·) (potentialBanks 0) := by
  have happ := tryFrom_larger_distribution buf128zero snap128zero 0
    (by norm_num [buf128zero]) rfl (by decide)
  exact ⟨happ.1 (by decide) 11 (by decide), happ.2.2.1 11 (by decide), happ.2.2.2.1⟩

/-! ### Claim C10 -/

/-- An all-zero 128K-sized buffer except that the paging-control byte
selects bank 2, so all six of {0,1,3,4,6,7} need chunks and the minimal
five-extra-bank length no longer suffices. -/
def buf128c2 : Buf := ⟨131103, fun i => if i = 49181 then 2 else 0⟩

/-- Claim C10 (implicit): when the low 3 bits of the paging-control byte
are 2 or 5, the third 16 KiB chunk lands in bank 2 or 5 on top of the
chunk already copied there (the selected bank ends up holding the third
chunk), no index is removed from {0,1,3,4,6,7}, decoding consumes six
16 KiB chunks after the extension record, and an input with only five
extra 16 KiB banks is a decode fault. -/
theorem tryFrom_control_two_or_five (bin : Buf) (c : Nat)
    (hc : c = bin.data 49181 &&& 0x07) (hlen : 49179 < bin.len)
    (hc25 : c = 2 ∨ c = 5) :
    potentialBanks c = [0, 1, 3, 4, 6, 7] ∧
    (∀ s, Snapshot.tryFrom bin = some s →
      49183 + 6 * MEM_16K ≤ bin.len ∧
      (∀ i, i < MEM_16K →
        s.bank_peek c i = some (bin.data (HEADER_SIZE + 2 * MEM_16K + i)))) ∧
    (bin.len = 49183 + 5 * MEM_16K → Snapshot.tryFrom bin = none) := by
  have hconsts := mem_consts
  have hpb : potentialBanks c = [0, 1, 3, 4, 6, 7] := by
    rcases hc25 with rfl | rfl <;> decide
  have hmain : ∀ s, Snapshot.tryFrom bin = some s →
      49183 + 6 * MEM_16K ≤ bin.len ∧
      (∀ i, i < MEM_16K →
        s.bank_peek c i = some (bin.data (HEADER_SIZE + 2 * MEM_16K + i))) := by
    intro s hs
    obtain ⟨-, -, -, hfill⟩ := tryFrom_128_inv (by omega) hs
    rw [← hc, hpb] at hfill
    constructor
    · have := fillBanks_minLen hfill (by simp)
      simp only [List.length_cons, List.length_nil] at this
      omega
    · intro i hi
      have hcnotmem : c ∉ potentialBanks c := by
        simp [potentialBanks]
      rw [hpb] at hcnotmem
      have hkeep : s.banks[c]? = (banksBeforeFill bin c)[c]? :=
        fillBanks_not_mem hfill hcnotmem
      rw [banksBeforeFill, List.getElem?_set_self (by simp; rcases hc25 with rfl | rfl <;> omega)] at hkeep
      rw [bank_peek_of_banks s c i _ hkeep hi]
  refine ⟨hpb, hmain, ?_⟩
  intro h5len
  rcases hsome : Snapshot.tryFrom bin with - | s
  · rfl
  · exfalso
    have h6 := (hmain s hsome).1
    omega

theorem tryFrom_control_two_or_five_witness :
    potentialBanks 2 = [0, 1, 3, 4, 6, 7] ∧ Snapshot.tryFrom buf128c2 = none := by
  have happ := tryFrom_control_two_or_five buf128c2 2 (by decide) (by decide) (Or.inl rfl)
  exact ⟨happ.1, happ.2.2 (by decide)⟩

end ZxSna
